import Mathlib

/-!
Verification of the Data-Discovery-Platform core against its specification.

The Python source is shallowly embedded:
* Python strings are Lean `String`; all character-level operations are
  re-implemented by structural recursion over `String.data` so that every
  definition evaluates inside the kernel.
* Filesystem locations are segment lists (`List String`), matching the parts
  view used by `pathlib`; `pathlib.PurePosixPath` parsing (collapsing of
  spurious slashes and single dots) is modelled by `purePosixParts`.
* The on-disk state is an explicit `Disk` value (directories plus a map from
  absolute segment paths to file sizes); directory trees handed to the tree
  walker and preview engine are `FSTree` values.
* `Path.resolve()` canonicalisation (symlinks included) is an abstract
  parameter `res : List String → List String`, since the guard in
  `_safe_join_dataset` re-checks containment after resolution whatever the
  filesystem does.
* Fallible Python code (raised `HTTPException` / `ValueError`) returns
  `Except`.
-/

/-- Lexicographic helper: one character list starts with another. -/
def charsStartWith : List Char → List Char → Bool
  | _, [] => true
  | [], _ :: _ => false
  | c :: cs, p :: ps => c = p && charsStartWith cs ps

/-- Model of Python str.startswith for the ASCII prefixes used in the source. -/
def strStartsWith (s pat : String) : Bool := charsStartWith s.data pat.data

/-- Model of Python str.endswith. -/
def strEndsWith (s pat : String) : Bool :=
  charsStartWith s.data.reverse pat.data.reverse

/-- Split a character list on the slash character, keeping empty pieces,
like Python str.split on a slash. -/
def splitOnSlash : List Char → List (List Char)
  | [] => [[]]
  | c :: cs =>
    if c = '/' then [] :: splitOnSlash cs
    else
      match splitOnSlash cs with
      | [] => [[c]]
      | seg :: rest => (c :: seg) :: rest

/-- The raw slash-separated pieces of a string. -/
def slashSegments (s : String) : List String :=
  (splitOnSlash s.data).map String.mk

/-- Model of the backslash normalisation performed in both copies of
the function safe relpath: filename.replace of backslash by slash. -/
def normalizeSlashes (s : String) : String :=
  String.mk (s.data.map (fun c => if c = '\\' then '/' else c))

/-- Model of PurePosixPath.is_absolute on the normalised string: the path
starts with a slash. -/
def posixIsAbsolute (s : String) : Bool :=
  match s.data with
  | [] => false
  | c :: _ => c = '/'

/-- Model of PurePosixPath(s).parts for a relative path: pathlib collapses
spurious slashes (empty pieces) and single-dot segments, and keeps
double-dot segments. -/
def purePosixParts (s : String) : List String :=
  (slashSegments s).filter (fun seg => seg ≠ "" && seg ≠ ".")

/-- The ancestor relation on canonical segment paths: anc is a proper
ancestor of desc exactly when anc appears in desc.parents in pathlib terms. -/
def isStrictAncestor (anc desc : List String) : Bool :=
  decide (anc.length < desc.length) && decide (desc.take anc.length = anc)

/-- Embedding of storage.is_hidden_or_metadata_path: any segment starting
with a dot, a final segment equal to .DS_Store or Thumbs.db, or a final
segment starting with dot-underscore. -/
def is_hidden_or_metadata_path (path : List String) : Bool :=
  let parts := path.filter (fun p => p ≠ "")
  if parts.any (fun part => strStartsWith part ".") then true
  else
    let base := path.getLast?.getD ""
    if base = ".DS_Store" || base = "Thumbs.db" then true
    else if strStartsWith base "._" then true
    else false

/-- Decidable equality for Except values, so concrete runs can be checked
with decide. -/
instance {ε α : Type} [DecidableEq ε] [DecidableEq α] : DecidableEq (Except ε α) := fun a b =>
  match a, b with
  | .error e, .error f =>
    if h : e = f then .isTrue (by rw [h]) else .isFalse (by simp [h])
  | .error _, .ok _ => .isFalse (by simp)
  | .ok _, .error _ => .isFalse (by simp)
  | .ok x, .ok y =>
    if h : x = y then .isTrue (by rw [h]) else .isFalse (by simp [h])

/-- Error carrying an HTTP status and detail, as raised by HTTPException. -/
structure HttpError where
  status : Nat
  detail : String
deriving DecidableEq, Repr

namespace Storage

/-- Embedding of storage._safe_segment. -/
def _safe_segment (value field_name : String) : Except String String :=
  if value = "" then .error ("Empty " ++ field_name)
  else if value.data.contains '\x00' then .error ("Invalid " ++ field_name)
  else if value.data.contains '/' || value.data.contains '\\' then
    .error (field_name ++ " must be a single path segment")
  else if value = "." || value = ".." then .error ("Invalid " ++ field_name)
  else .ok value

/-- Embedding of storage._safe_relpath: normalise backslashes, reject
absolute paths, reject any part equal to double-dot or empty (pathlib parts
never contain an empty piece), and return the surviving segment list. -/
def _safe_relpath (filename : String) : Except String (List String) :=
  if filename = "" then .error "Empty filename"
  else
    let normalized := normalizeSlashes filename
    if posixIsAbsolute normalized then
      .error ("Absolute paths not allowed: " ++ filename)
    else
      let parts := purePosixParts normalized
      if parts.any (fun part => part = ".." || part = "") then
        .error ("Invalid path: " ++ filename)
      else .ok parts

end Storage

namespace Browse

/-- Embedding of browse._safe_relpath. -/
def _safe_relpath (rel : String) : Except HttpError (List String) :=
  if rel = "" then .error ⟨400, "path is required"⟩
  else
    let rel_norm := normalizeSlashes rel
    if posixIsAbsolute rel_norm then
      .error ⟨400, "Absolute paths not allowed"⟩
    else
      let parts := purePosixParts rel_norm
      if ".." ∈ parts then .error ⟨400, "Invalid path"⟩
      else .ok parts

/-- Embedding of browse._safe_join_dataset. The canonicalisation performed
by Path.resolve is the abstract parameter res; the guard compares the
resolved join against the resolved root exactly as the source does. -/
def _safe_join_dataset (res : List String → List String) (root : List String)
    (rel : String) : Except HttpError (List String) :=
  let root_resolved := res root
  match _safe_relpath rel with
  | .error e => .error e
  | .ok parts =>
    let full := res (root ++ parts)
    if full ≠ root_resolved ∧ isStrictAncestor root_resolved full = false then
      .error ⟨400, "Path escapes dataset root"⟩
    else .ok full

end Browse

/-- Status of an error result, if any. -/
def errStatus? {α : Type} : Except HttpError α → Option Nat
  | .error e => some e.status
  | .ok _ => none

/-- In-memory snapshot of a directory subtree on disk: a file with its size
in bytes, or a directory with named entries in scandir order. -/
inductive FSTree where
  | file (size : Nat)
  | dir (entries : List (String × FSTree))
deriving Repr

/-- Model of Path.is_dir for an FSTree entry. -/
def FSTree.isDir : FSTree → Bool
  | .dir _ => true
  | .file _ => false

/-- Model of ASCII lower-casing of a character, as str.lower performs on the
names appearing in this development. -/
def charLower (c : Char) : Char :=
  if 'A' ≤ c ∧ c ≤ 'Z' then Char.ofNat (c.toNat + 32) else c

/-- Model of str.lower. -/
def strLower (s : String) : String := String.mk (s.data.map charLower)

/-- Code-point lexicographic strict order on character lists, as Python
compares strings. -/
def charsLt : List Char → List Char → Bool
  | [], [] => false
  | [], _ :: _ => true
  | _ :: _, [] => false
  | a :: xs, b :: ys =>
    if a.toNat < b.toNat then true
    else if a.toNat = b.toNat then charsLt xs ys
    else false

/-- Strict string order by code points. -/
def strLt (a b : String) : Bool := charsLt a.data b.data

/-- Non-strict string order by code points. -/
def strLe (a b : String) : Bool := strLt a b || a = b

namespace Browse

/-- The sort key used for directory children in dataset_tree: the pair of
not is_dir (directories first) and the lower-cased name. -/
def childKey (e : String × FSTree) : Bool × String := (!e.2.isDir, strLower e.1)

/-- Comparison of two sort keys: lexicographic on the pair, with false
before true and names by code points, exactly the order Python sorted uses
on these key tuples. -/
def keyLe (a b : Bool × String) : Bool :=
  (!a.1 && b.1) || (a.1 = b.1 && strLe a.2 b.2)

/-- Boolean comparison of two directory children by their sort keys. -/
def childLe (a b : String × FSTree) : Bool := keyLe (childKey a) (childKey b)

/-- The child comparison as a relation, for the sorting function. -/
def childRel (a b : String × FSTree) : Prop := childLe a b = true

instance : DecidableRel childRel := fun _ _ => instDecidableEqBool _ _

/-- Model of sorted with the key of dataset_tree: a stable sort by childLe.
Python sorted is a stable merge sort; a stable insertion sort computes the
same list for the same total preorder. -/
def sortChildren (entries : List (String × FSTree)) : List (String × FSTree) :=
  List.insertionSort childRel entries

/-- Node of the tree returned by dataset_tree. The path field holds the
segment list relative to the dataset root (rendered with slashes at the
JSON boundary; empty for the root itself). -/
inductive TreeNode where
  | dir (name : String) (path : List String) (children : List TreeNode)
  | file (name : String) (path : List String) (size_bytes : Nat)
deriving Repr

/-- The nonlocal mutable state of the closure in dataset_tree. -/
structure TreeState where
  truncated : Bool
  entries_seen : Nat
deriving DecidableEq, Repr

/-- The child loop of _build_dir_node over an already sorted entry list:
skip hidden entries, stop and mark truncated once the global entry counter
reaches max_entries, otherwise count the entry and emit a file node or hand
a directory to handleDir (the recursive call one level deeper). -/
def childLoop (max_entries : Nat)
    (handleDir : List (String × FSTree) → String → List String → TreeState → TreeNode × TreeState) :
    List (String × FSTree) → List String → TreeState → List TreeNode × TreeState
  | [], _, st => ([], st)
  | (nm, t) :: rest, relpath, st =>
    let rel_child := relpath ++ [nm]
    if is_hidden_or_metadata_path rel_child then
      childLoop max_entries handleDir rest relpath st
    else if st.entries_seen ≥ max_entries then
      ([], { st with truncated := true })
    else
      let st1 : TreeState := { st with entries_seen := st.entries_seen + 1 }
      match t with
      | .dir es =>
        let (node, st2) := handleDir es nm rel_child st1
        let (nodes, st3) := childLoop max_entries handleDir rest relpath st2
        (node :: nodes, st3)
      | .file sz =>
        let (nodes, st2) := childLoop max_entries handleDir rest relpath st1
        ((.file nm rel_child sz : TreeNode) :: nodes, st2)

/-- Embedding of the closure _build_dir_node of browse.dataset_tree.
Instead of the Python depth that grows toward max_depth, the argument
remDepth counts the remaining depth budget (max_depth minus depth), so the
guard depth at least max_depth becomes remDepth equal zero; a directory
reached with no budget left is emitted with empty children, exactly as the
guard does in the source. -/
def _build_dir_node (max_entries : Nat) :
    Nat → List (String × FSTree) → String → List String → TreeState → TreeNode × TreeState
  | 0, _, name, relpath, st => (.dir name relpath [], st)
  | r + 1, dir_entries, name, relpath, st =>
    if st.truncated then (.dir name relpath [], st)
    else
      let (children, st1) :=
        childLoop max_entries (_build_dir_node max_entries r) (sortChildren dir_entries) relpath st
      (.dir name relpath children, st1)

end Browse

/-- Mutable filesystem state touched by ingestion: the set of directories
created and a finite map (duplicate-free association list) from absolute
segment paths to file sizes. -/
structure Disk where
  dirs : List (List String)
  files : List (List String × Nat)
deriving DecidableEq, Repr

/-- Add a directory path if it is not present yet. -/
def addDir (ds : List (List String)) (p : List String) : List (List String) :=
  if p ∈ ds then ds else ds ++ [p]

/-- Model of Path.mkdir with parents true and exist_ok true: create the
directory and every ancestor. -/
def mkdirParents (ds : List (List String)) (p : List String) : List (List String) :=
  (List.range (p.length + 1)).foldl (fun acc i => addDir acc (p.take i)) ds

/-- Model of writing one file: create the parent directories, then write
the content, overwriting any existing file at that path. -/
def writeFile (d : Disk) (p : List String) (size : Nat) : Disk :=
  { dirs := mkdirParents d.dirs (p.dropLast)
    files := d.files.filter (fun e => e.1 ≠ p) ++ [(p, size)] }

namespace Storage

/-- Embedding of storage.BASE_PATH. -/
def BASE_PATH : List String := ["data", "raw"]

/-- One incoming multipart file: the client-supplied filename (which may
encode a relative path) and the byte length of its content. -/
structure UploadFile where
  filename : String
  size : Nat
deriving DecidableEq, Repr

/-- The write loop of storage.save_files: resolve each filename through
the function safe relpath (a ValueError there aborts the whole call with
the disk left as already written), skip hidden and metadata files, and
write everything else under the root. -/
def saveLoop (root : List String) : List UploadFile → Disk → Disk × Option String
  | [], d => (d, none)
  | f :: rest, d =>
    match _safe_relpath f.filename with
    | .error e => (d, some e)
    | .ok rel =>
      if is_hidden_or_metadata_path rel then saveLoop root rest d
      else saveLoop root rest (writeFile d (root ++ rel) f.size)

/-- Embedding of storage.save_files: validate the partner and dataset
segments, create the storage root (parents included) before looking at any
file, then run the write loop. On success the root path is returned. -/
def save_files (d : Disk) (partner_id dataset_name : String) (files : List UploadFile) :
    Disk × Except String (List String) :=
  match _safe_segment partner_id "partner_id" with
  | .error e => (d, .error e)
  | .ok pid =>
    match _safe_segment dataset_name "dataset_name" with
    | .error e => (d, .error e)
    | .ok dname =>
      let root := BASE_PATH ++ [pid, dname]
      let d1 : Disk := { d with dirs := mkdirParents d.dirs root }
      match saveLoop root files d1 with
      | (d2, some e) => (d2, .error e)
      | (d2, none) => (d2, .ok root)

end Storage

/-- The files of a disk lying strictly under a root, as pairs of the
relative segment path and the size, in storage order: what root.rglob
visits, relative_to the root. -/
def filesUnder (d : Disk) (root : List String) : List (List String × Nat) :=
  (d.files.filter (fun e => isStrictAncestor root e.1)).map
    (fun e => (e.1.drop root.length, e.2))

/-- Dataset record as registered by the upload route (the fields the core
computes; id, type and timestamp are plumbing). -/
structure DatasetRecord where
  partner_id : String
  name : String
  path : List String
  file_count : Nat
  total_size_bytes : Nat
deriving DecidableEq, Repr

namespace Upload

/-- Embedding of the upload.upload route: save the files (a ValueError
becomes a 400), re-walk the destination root on disk counting every
non-hidden file and its size, fail with the distinct 400 when that count is
zero, and otherwise register the dataset record. The final disk state is
returned in every case. -/
def upload (d : Disk) (partner_id dataset_name : String) (files : List Storage.UploadFile) :
    Disk × Except HttpError DatasetRecord :=
  match Storage.save_files d partner_id dataset_name files with
  | (d1, .error e) => (d1, .error ⟨400, e⟩)
  | (d1, .ok root) =>
    let all_files := (filesUnder d1 root).filter (fun e => !is_hidden_or_metadata_path e.1)
    let file_count := all_files.length
    let total_size := (all_files.map (fun e => e.2)).sum
    if file_count = 0 then
      (d1, .error ⟨400, "No uploadable files found (hidden/metadata files were skipped)"⟩)
    else
      (d1, .ok { partner_id := partner_id, name := dataset_name, path := root,
                 file_count := file_count, total_size_bytes := total_size })

end Upload

namespace Browse

/-- Result of the dataset_tree route. -/
structure TreeResult where
  entries_returned : Nat
  truncated : Bool
  tree : TreeNode

/-- Embedding of the browse.dataset_tree route body on the directory
snapshot of the dataset root: path is always empty there, max_depth is 5
and max_entries is 2000. -/
def dataset_tree (root_entries : List (String × FSTree)) : TreeResult :=
  let max_depth := 5
  let max_entries := 2000
  let (tree, st) := _build_dir_node max_entries max_depth root_entries "" [] ⟨false, 0⟩
  { entries_returned := st.entries_seen, truncated := st.truncated, tree := tree }

end Browse

/-- One entry found by a recursive scan of the dataset root: the relative
segment path, whether it is a regular file, and its size. -/
structure FSEntry where
  path : List String
  isFile : Bool
  size : Nat
deriving DecidableEq, Repr

mutual

/-- A subtree scan listing the node itself and all its descendants, as
root.rglob visits them. -/
def fsWalk (pre : List String) : FSTree → List FSEntry
  | .file sz => [⟨pre, true, sz⟩]
  | .dir es => ⟨pre, false, 0⟩ :: walkEntries pre es

/-- Scan of a directory entry list: every entry and all its descendants. -/
def walkEntries (pre : List String) : List (String × FSTree) → List FSEntry
  | [] => []
  | (nm, t) :: rest => fsWalk (pre ++ [nm]) t ++ walkEntries pre rest

end

/-- The final component of a relative segment path, like Path.name. -/
def pathName (p : List String) : String := p.getLast?.getD ""

/-- The characters after the last dot of a name, when a dot occurs. -/
def afterLastDot : List Char → Option (List Char)
  | [] => none
  | c :: cs =>
    match afterLastDot cs with
    | some s => some s
    | none => if c = '.' then some cs else none

/-- Model of Path.suffix of a final path component: the last dot with what
follows it, unless the dot is the leading or the final character. -/
def pathSuffix (name : String) : String :=
  match name.data with
  | [] => ""
  | _ :: rest =>
    match afterLastDot rest with
    | some s => if s = [] then "" else String.mk ('.' :: s)
    | none => ""

/-- Rendering of a relative segment path with slashes, like str of a Path. -/
def renderPath (p : List String) : String := String.intercalate "/" p

namespace Browse

/-- Order on scan entries by rendered path, as Python sorts Path objects. -/
def pathRel (a b : FSEntry) : Prop :=
  strLe (renderPath a.path) (renderPath b.path) = true

instance : DecidableRel pathRel := fun _ _ => instDecidableEqBool _ _

/-- Model of sorted on a list of paths from a scan. -/
def sortEntries (l : List FSEntry) : List FSEntry := List.insertionSort pathRel l

/-- Decoded output of the parquet preview subprocess for one file. -/
structure ParquetPayload where
  returned : Nat
  columns : List String
deriving DecidableEq, Repr

/-- One successful tabular preview in the route response. -/
structure ParquetPreview where
  path : List String
  returned : Nat
  columns : List String
deriving DecidableEq, Repr

/-- One successful image preview in the route response. -/
structure ImagePreview where
  path : List String
  width : Nat
  height : Nat
deriving DecidableEq, Repr

/-- One recorded per-file error in the shared error list. -/
structure PreviewError where
  type : String
  path : List String
  error : String
deriving DecidableEq, Repr

/-- The body of the preview_dataset response. -/
structure PreviewResult where
  parquet_count : Nat
  parquet_previews : List ParquetPreview
  image_count : Nat
  image_previews : List ImagePreview
  errors : List PreviewError
deriving DecidableEq, Repr

/-- The parquet loop of preview_dataset: each file is decoded in the
isolated subprocess (modelled by the oracle decode, whose error covers
crash, exception and timeout alike) and yields either a preview entry or a
recorded error, never aborting the loop. -/
def parquetLoop (decode : List String → Except String ParquetPayload) :
    List (List String) → List ParquetPreview × List PreviewError
  | [] => ([], [])
  | f :: rest =>
    let (ps, es) := parquetLoop decode rest
    match decode f with
    | .ok pay => (⟨f, pay.returned, pay.columns⟩ :: ps, es)
    | .error e => (ps, ⟨"parquet", f, e⟩ :: es)

/-- The image loop of preview_dataset: each candidate is opened far enough
to read its dimensions (modelled by the oracle open); a decode failure is
recorded as a per-file error. -/
def imageLoop (openImg : List String → Except String (Nat × Nat)) :
    List (List String) → List ImagePreview × List PreviewError
  | [] => ([], [])
  | f :: rest =>
    let (ps, es) := imageLoop openImg rest
    match openImg f with
    | .ok wh => (⟨f, wh.1, wh.2⟩ :: ps, es)
    | .error e => (ps, ⟨"image", f, e⟩ :: es)

/-- The image extension set of preview_dataset and thumbnail. -/
def image_exts : List String :=
  [".png", ".jpg", ".jpeg", ".gif", ".webp", ".bmp", ".tif", ".tiff", ".heic"]

/-- The tabular files preview_dataset locates: every scanned entry whose
name matches the pattern star dot parquet, in sorted path order, first 25.
Note the scan applies no hidden-file filter. -/
def parquetFilesOf (root_entries : List (String × FSTree)) : List FSEntry :=
  (sortEntries ((walkEntries [] root_entries).filter
    (fun e => strEndsWith (pathName e.path) ".parquet"))).take 25

/-- The image files preview_dataset locates: every scanned regular file
whose lower-cased suffix is an image extension, in sorted path order,
first 50. Note the scan applies no hidden-file filter. -/
def imageFilesOf (root_entries : List (String × FSTree)) : List FSEntry :=
  (sortEntries ((walkEntries [] root_entries).filter
    (fun e => e.isFile && image_exts.contains (strLower (pathSuffix (pathName e.path)))))).take 50

/-- Embedding of the browse.preview_dataset route on the directory snapshot
of the dataset root. The pillow flag models whether the PIL import
succeeds; the oracles model the parquet subprocess and PIL Image.open. -/
def preview_dataset (root_entries : List (String × FSTree))
    (decode : List String → Except String ParquetPayload)
    (openImg : List String → Except String (Nat × Nat))
    (pillow : Bool) : Except HttpError PreviewResult :=
  let parquet_files := parquetFilesOf root_entries
  let (pps, pes) := parquetLoop decode (parquet_files.map (fun e => e.path))
  if pillow = false then .error ⟨500, "Pillow not installed (pip install pillow)"⟩
  else
    let image_files := imageFilesOf root_entries
    let (ips, ies) := imageLoop openImg (image_files.map (fun e => e.path))
    .ok { parquet_count := parquet_files.length
          parquet_previews := pps
          image_count := image_files.length
          image_previews := ips
          errors := pes ++ ies }

end Browse

/-- The image modes PIL Image.open yields for the formats the routes
accept. -/
inductive PILMode where
  | one | L | LA | P | RGB | RGBA | CMYK | I | F
deriving DecidableEq, Repr

/-- A decoded PIL image: dimensions, mode, and whether a transparency key
is present in the info dictionary (for palette images). -/
structure PILImage where
  width : Nat
  height : Nat
  mode : PILMode
  transparency_in_info : Bool
deriving DecidableEq, Repr

/-- Absolute difference of two naturals, the exact numerator comparison
behind the key functions of the Pillow rounding helper. -/
def natDist (a b : Nat) : Nat := max a b - min a b

/-- Model of Pillow Image.thumbnail size computation with box (mx, mx), in
exact integer arithmetic: a no-op when both dimensions already fit, else
the bounding dimension becomes mx and the other is the rounded aspect
value, keeping at least 1. The two floor and ceiling candidates and the
key-based choice mirror the round_aspect helper of Pillow. -/
def Image_thumbnail (w h mx : Nat) : Nat × Nat :=
  if mx ≥ w ∧ mx ≥ h then (w, h)
  else if h ≥ w then
    let fl := (mx * w) / h
    let ce := if 2 * mx * w ≤ h then 0 else (2 * mx * w - h + 2 * h - 1) / (2 * h)
    let chosen := if natDist (w * mx) (ce * h) < natDist (w * mx) (fl * h) then ce else fl
    (max chosen 1, mx)
  else
    let fl := (mx * h) / w
    let ce := if 2 * mx * h ≤ w then 0 else (2 * mx * h - w + 2 * w - 1) / (2 * w)
    let keyLt : Nat → Nat → Bool := fun a b =>
      if a = 0 then decide (b ≠ 0 ∧ 0 < natDist (w * b) (mx * h))
      else if b = 0 then false
      else decide (natDist (w * a) (mx * h) * b < natDist (w * b) (mx * h) * a)
    let chosen := if keyLt ce fl then ce else fl
    (mx, max chosen 1)

namespace Browse

/-- Output of the thumbnail route: final dimensions, response media type,
the mode the image is saved in, and the JPEG quality when lossy. -/
structure ThumbOut where
  width : Nat
  height : Nat
  media_type : String
  mode : PILMode
  quality : Option Nat
deriving DecidableEq, Repr

/-- The transparency test of the thumbnail route: mode RGBA or LA, or a
palette image with a transparency key in info. -/
def has_alpha (img : PILImage) : Bool :=
  img.mode = .RGBA || img.mode = .LA || (img.mode = .P && img.transparency_in_info)

/-- The resize and encode core of the browse.thumbnail route, with the
bounding box size as a parameter (the route uses 256): shrink with
Image.thumbnail, then save as PNG when the source has transparency and
otherwise convert any mode outside RGB and L to RGB and save as JPEG at
quality 85. -/
def thumbnail_render (img : PILImage) (maxDim : Nat) : ThumbOut :=
  let (w, h) := Image_thumbnail img.width img.height maxDim
  if has_alpha img then ⟨w, h, "image/png", img.mode, none⟩
  else
    let m := if img.mode = .RGB ∨ img.mode = .L then img.mode else .RGB
    ⟨w, h, "image/jpeg", m, some 85⟩

/-- The browse.thumbnail route body for a decoded image, with the fixed
thumbnail_max_size of 256. -/
def thumbnail (img : PILImage) : ThumbOut := thumbnail_render img 256

/-- The candidate list of the thumbnail route when no path is given: every
scanned regular file with an image extension that is not hidden or
metadata; the route picks one of these at random. -/
def thumbnailCandidates (root_entries : List (String × FSTree)) : List FSEntry :=
  (walkEntries [] root_entries).filter
    (fun e => e.isFile && image_exts.contains (strLower (pathSuffix (pathName e.path)))
      && !is_hidden_or_metadata_path e.path)

/-- The children of a tree node (none for a file node). -/
def TreeNode.childrenOf : TreeNode → List TreeNode
  | .dir _ _ cs => cs
  | .file _ _ _ => []

mutual

/-- Number of entries in a tree node, the node itself included. -/
def TreeNode.size : TreeNode → Nat
  | .file _ _ _ => 1
  | .dir _ _ cs => 1 + forestSize cs

/-- Number of entries in a forest of tree nodes. -/
def forestSize : List TreeNode → Nat
  | [] => 0
  | c :: cs => TreeNode.size c + forestSize cs

end

mutual

/-- Every path appearing in a tree node, its own included. -/
def nodePaths : TreeNode → List (List String)
  | .file _ p _ => [p]
  | .dir _ p cs => p :: forestPaths cs

/-- Every path appearing in a forest of tree nodes. -/
def forestPaths : List TreeNode → List (List String)
  | [] => []
  | c :: cs => nodePaths c ++ forestPaths cs

end

/-- Whether a tree node is a directory node. -/
def nodeIsDir : TreeNode → Bool
  | .dir _ _ _ => true
  | .file _ _ _ => false

/-- The name of a tree node. -/
def nodeName : TreeNode → String
  | .dir n _ _ => n
  | .file n _ _ => n

/-- The sort key of an emitted tree node, matching childKey of the entry it
came from. -/
def nodeKey (n : TreeNode) : Bool × String := (!nodeIsDir n, strLower (nodeName n))

/-- The child ordering the specification describes: directories strictly
before files, and otherwise (same kind) lower-cased names in code-point
order. -/
def nodeOrd (a b : TreeNode) : Prop :=
  (nodeIsDir a = true ∧ nodeIsDir b = false) ∨
    (nodeIsDir a = nodeIsDir b ∧ strLe (strLower (nodeName a)) (strLower (nodeName b)) = true)

end Browse

/-- Fixture: the entry list of the ordering example, a directory holding
b.txt, A_dir (a sub-directory) and a.txt. -/
def exampleEntries : List (String × FSTree) :=
  [("b.txt", .file 1), ("A_dir", .dir []), ("a.txt", .file 2)]

/-- Fixture: a dataset root holding a hidden parquet file, a plain parquet
file, a plain image, and an image inside a hidden directory. -/
def hiddenFs : List (String × FSTree) :=
  [("._x.parquet", .file 10), ("ok.parquet", .file 5), ("img.png", .file 2),
   (".h", .dir [("y.png", .file 1)])]

/-- Fixture: a parquet decode oracle that always succeeds. -/
def okDecode : List String → Except String Browse.ParquetPayload :=
  fun _ => .ok ⟨3, ["c"]⟩

/-- Fixture: an image open oracle that always succeeds. -/
def okOpen : List String → Except String (Nat × Nat) :=
  fun _ => .ok (4, 5)

/-- Fixture: a parquet decode oracle that crashes on bad.parquet and
succeeds elsewhere. -/
def mixDecode : List String → Except String Browse.ParquetPayload :=
  fun p => if p = ["bad.parquet"] then .error "decode crashed" else .ok ⟨2, ["a", "b"]⟩

/-- Fixture: a disk whose dataset root for partner p and name n already
holds one non-hidden file from an earlier upload. -/
def priorDisk : Disk :=
  ⟨[["data"], ["data", "raw"], ["data", "raw", "p"], ["data", "raw", "p", "n"]],
   [(["data", "raw", "p", "n", "old.txt"], 7)]⟩

/-- Fixture: a flat directory of three visible files. -/
def flat3 : List (String × FSTree) :=
  [("a", .file 1), ("b", .file 1), ("c", .file 1)]

/-! ## Theorems -/

/-- Helper: under an absolute or traversal input, the browse path check
fails with status 400. -/
theorem Browse_safe_relpath_rejects (rel : String)
    (h : posixIsAbsolute (normalizeSlashes rel) = true ∨
      ".." ∈ purePosixParts (normalizeSlashes rel)) :
    ∃ d, Browse._safe_relpath rel = .error ⟨400, d⟩ := by
  unfold Browse._safe_relpath
  split
  · exact ⟨_, rfl⟩
  · dsimp only
    split
    · exact ⟨_, rfl⟩
    · split
      · exact ⟨_, rfl⟩
      · rename_i habs hdots
        rcases h with h | h
        · exact absurd h (by simpa using habs)
        · exact absurd h hdots

/-- Helper: under an absolute or traversal input, the storage path check
fails. -/
theorem Storage_safe_relpath_rejects (fn : String)
    (h : posixIsAbsolute (normalizeSlashes fn) = true ∨
      ".." ∈ purePosixParts (normalizeSlashes fn)) :
    (Storage._safe_relpath fn).isOk = false := by
  unfold Storage._safe_relpath
  split
  · rfl
  · dsimp only
    split
    · rfl
    · split
      · rfl
      · rename_i habs hany
        rcases h with h | h
        · exact absurd h (by simpa using habs)
        · have hall : ∀ x ∈ purePosixParts (normalizeSlashes fn), ¬x = ".." ∧ ¬x = "" := by
            simpa using hany
          exact absurd rfl (hall ".." h).1

/-- C1: every untrusted relative path accepted by the path resolution
resolves to the root itself or to a proper descendant of the root, for any
canonicalisation behaviour of the filesystem; every absolute path and every
path carrying a double-dot segment is rejected with the 400 invalid-path
error by the browse resolver and rejected by the storage resolver; and the
storage write destination built from an accepted path is likewise the root
or a proper descendant. -/
theorem pathguard_containment_and_rejection :
    (∀ (res : List String → List String) (root : List String) (rel : String)
        (full : List String),
        Browse._safe_join_dataset res root rel = .ok full →
        full = res root ∨ isStrictAncestor (res root) full = true) ∧
    (∀ (rel : String),
        posixIsAbsolute (normalizeSlashes rel) = true ∨
          ".." ∈ purePosixParts (normalizeSlashes rel) →
        ∀ (res : List String → List String) (root : List String),
          errStatus? (Browse._safe_join_dataset res root rel) = some 400) ∧
    (∀ (fn : String),
        posixIsAbsolute (normalizeSlashes fn) = true ∨
          ".." ∈ purePosixParts (normalizeSlashes fn) →
        (Storage._safe_relpath fn).isOk = false) ∧
    (∀ (fn : String) (parts : List String),
        Storage._safe_relpath fn = .ok parts →
        ∀ (root : List String),
          root ++ parts = root ∨ isStrictAncestor root (root ++ parts) = true) := by
  refine ⟨?_, ?_, Storage_safe_relpath_rejects, ?_⟩
  · intro res root rel full hok
    unfold Browse._safe_join_dataset at hok
    rcases hmatch : Browse._safe_relpath rel with e | parts
    · rw [hmatch] at hok; cases hok
    · rw [hmatch] at hok
      by_cases hcond : res (root ++ parts) ≠ res root ∧
          isStrictAncestor (res root) (res (root ++ parts)) = false
      · simp only [if_pos hcond] at hok; cases hok
      · simp only [if_neg hcond] at hok
        cases hok
        rcases not_and_or.mp hcond with h | h
        · exact Or.inl (not_not.mp h)
        · exact Or.inr (by simpa using h)
  · intro rel h res root
    obtain ⟨d, hd⟩ := Browse_safe_relpath_rejects rel h
    unfold Browse._safe_join_dataset
    rw [hd]
    rfl
  · intro fn parts hok root
    cases parts with
    | nil => exact Or.inl (by simp)
    | cons p ps =>
      refine Or.inr ?_
      unfold isStrictAncestor
      simp [List.take_left]

/-- C4: paths with empty segments after slash normalisation are accepted
and silently normalised, not rejected: pathlib parts never contain an empty
piece, so the empty-segment guard in the storage resolver never fires, and
the browse resolver has no such guard at all. The in-code comment claims
the guard catches such inputs. -/
theorem pathguard_empty_segment_silently_normalized :
    Storage._safe_relpath "a//b" = .ok ["a", "b"] ∧
    Storage._safe_relpath "a/b/" = .ok ["a", "b"] ∧
    Browse._safe_relpath "a//b" = .ok ["a", "b"] ∧
    Browse._safe_relpath "a/b/" = .ok ["a", "b"] := by decide

/-- Witness for the path-guard theorem: a traversal input is rejected with
status 400 by the browse resolver and rejected by the storage resolver, and
an accepted nested path resolves to a proper descendant of the root. -/
theorem pathguard_containment_and_rejection_witness :
    errStatus? (Browse._safe_join_dataset id ["d", "r"] "../z") = some 400 ∧
    (Storage._safe_relpath "/etc/passwd").isOk = false ∧
    (["d", "r"] ++ ["a", "b"] = ["d", "r"] ∨
      isStrictAncestor ["d", "r"] (["d", "r"] ++ ["a", "b"]) = true) :=
  ⟨pathguard_containment_and_rejection.2.1 "../z" (by decide) id ["d", "r"],
   pathguard_containment_and_rejection.2.2.1 "/etc/passwd" (by decide),
   pathguard_containment_and_rejection.2.2.2 "a/b" ["a", "b"] (by decide) ["d", "r"]⟩

/-- Helper: membership in a directory list survives addDir. -/
theorem addDir_mem {ds : List (List String)} {q : List String} (p : List String)
    (h : q ∈ ds) : q ∈ addDir ds p := by
  unfold addDir
  split
  · exact h
  · exact List.mem_append_left _ h

/-- Helper: addDir puts its argument in the directory list. -/
theorem addDir_self (ds : List (List String)) (p : List String) : p ∈ addDir ds p := by
  unfold addDir
  split
  · assumption
  · exact List.mem_append_right _ (by simp)

/-- Helper: mkdirParents creates the directory itself. -/
theorem mkdirParents_self (ds : List (List String)) (p : List String) :
    p ∈ mkdirParents ds p := by
  unfold mkdirParents
  rw [List.range_succ, List.foldl_append]
  simp only [List.foldl_cons, List.foldl_nil, List.take_length]
  exact addDir_self _ _

/-- Helper: a write loop over only hidden files writes nothing and cannot
fail. -/
theorem saveLoop_all_hidden (root : List String) (files : List Storage.UploadFile)
    (d : Disk)
    (h : ∀ f ∈ files, ∃ rel, Storage._safe_relpath f.filename = .ok rel ∧
      is_hidden_or_metadata_path rel = true) :
    Storage.saveLoop root files d = (d, none) := by
  induction files with
  | nil => rfl
  | cons f rest ih =>
    obtain ⟨rel, hok, hhid⟩ := h f (by simp)
    unfold Storage.saveLoop
    rw [hok]
    simp only [hhid, if_true]
    exact ih (fun g hg => h g (by simp [hg]))

/-- Helper: a file already on disk survives the write loop whenever no
incoming file resolves to its path. -/
theorem saveLoop_preserves (root : List String) (files : List Storage.UploadFile) :
    ∀ (d : Disk) (p : List String) (sz : Nat),
      (p, sz) ∈ d.files →
      (∀ f ∈ files, ∀ rel, Storage._safe_relpath f.filename = .ok rel → root ++ rel ≠ p) →
      (p, sz) ∈ (Storage.saveLoop root files d).1.files := by
  induction files with
  | nil => intro d p sz hmem _; exact hmem
  | cons f rest ih =>
    intro d p sz hmem hnw
    unfold Storage.saveLoop
    rcases hok : Storage._safe_relpath f.filename with e | rel
    · exact hmem
    · simp only []
      split
      · exact ih d p sz hmem (fun g hg => hnw g (by simp [hg]))
      · refine ih _ p sz ?_ (fun g hg => hnw g (by simp [hg]))
        simp only [writeFile]
        refine List.mem_append_left _ (List.mem_filter.mpr ⟨hmem, ?_⟩)
        simpa using (hnw f (by simp) rel hok).symm

/-- Helper: a successful segment check returns the value unchanged. -/
theorem safe_segment_ok_eq {value fn v : String}
    (h : Storage._safe_segment value fn = .ok v) : v = value := by
  unfold Storage._safe_segment at h
  split at h
  · cases h
  · split at h
    · cases h
    · split at h
      · cases h
      · split at h
        · cases h
        · cases h; rfl

/-- Helper: a successful save_files call fixes the root below BASE_PATH and
comes from a clean run of the write loop on the disk with the root
directories created. -/
theorem save_files_ok_destruct {d : Disk} {pid dn : String}
    {files : List Storage.UploadFile} {d1 : Disk} {root : List String}
    (h : Storage.save_files d pid dn files = (d1, .ok root)) :
    root = Storage.BASE_PATH ++ [pid, dn] ∧
    Storage.saveLoop (Storage.BASE_PATH ++ [pid, dn]) files
      { d with dirs := mkdirParents d.dirs (Storage.BASE_PATH ++ [pid, dn]) } = (d1, none) := by
  unfold Storage.save_files at h
  rcases hp : Storage._safe_segment pid "partner_id" with e | p
  · rw [hp] at h; simp at h
  · rw [hp] at h
    rcases hd : Storage._safe_segment dn "dataset_name" with e | q
    · rw [hd] at h; simp at h
    · rw [hd] at h
      have hpv : p = pid := safe_segment_ok_eq hp
      have hqv : q = dn := safe_segment_ok_eq hd
      subst hpv hqv
      dsimp only at h
      rcases hsl : Storage.saveLoop (Storage.BASE_PATH ++ [p, q]) files
          { d with dirs := mkdirParents d.dirs (Storage.BASE_PATH ++ [p, q]) } with ⟨d2, oe⟩
      rw [hsl] at h
      cases oe with
      | some e => simp at h
      | none =>
        simp only [Prod.mk.injEq, Except.ok.injEq] at h
        obtain ⟨h1, h2⟩ := h
        subst h1
        subst h2
        exact ⟨rfl, rfl⟩

/-- Helper: after a successful save, the upload route re-walks the final
disk under the root and either raises the distinct zero-files error or
registers the record computed from that walk. -/
theorem upload_eq_of_save_ok {d : Disk} {pid dn : String}
    {files : List Storage.UploadFile} {d1 : Disk} {root : List String}
    (h : Storage.save_files d pid dn files = (d1, .ok root)) :
    Upload.upload d pid dn files =
      (if ((filesUnder d1 root).filter (fun e => !is_hidden_or_metadata_path e.1)).length = 0 then
        (d1, .error ⟨400, "No uploadable files found (hidden/metadata files were skipped)"⟩)
      else
        (d1, .ok ⟨pid, dn, root,
          ((filesUnder d1 root).filter (fun e => !is_hidden_or_metadata_path e.1)).length,
          (((filesUnder d1 root).filter
            (fun e => !is_hidden_or_metadata_path e.1)).map (fun e => e.2)).sum⟩)) := by
  unfold Upload.upload
  rw [h]

/-- Helper: an upload whose incoming files are all hidden leaves the file
map of the disk unchanged and succeeds at the save step. -/
theorem save_files_all_hidden {d : Disk} {pid dn : String}
    {files : List Storage.UploadFile}
    (hp : Storage._safe_segment pid "partner_id" = .ok pid)
    (hd : Storage._safe_segment dn "dataset_name" = .ok dn)
    (hall : ∀ f ∈ files, ∃ rel, Storage._safe_relpath f.filename = .ok rel ∧
      is_hidden_or_metadata_path rel = true) :
    Storage.save_files d pid dn files =
      ({ d with dirs := mkdirParents d.dirs (Storage.BASE_PATH ++ [pid, dn]) },
        .ok (Storage.BASE_PATH ++ [pid, dn])) := by
  unfold Storage.save_files
  rw [hp, hd]
  dsimp only
  rw [saveLoop_all_hidden _ _ _ hall]

/-- C3 (amended): the upload route fails with the distinct zero-files error
exactly when the destination root holds zero non-hidden files after the
writes; when every submitted file is hidden or metadata, the writes leave
the file map unchanged, so on a root already holding non-hidden files from
earlier uploads the error is not raised. -/
theorem upload_zero_uploadable_error :
    ∀ (d : Disk) (pid dn : String) (files : List Storage.UploadFile)
      (d1 : Disk) (root : List String),
      Storage.save_files d pid dn files = (d1, .ok root) →
      (((Upload.upload d pid dn files).2 =
          .error ⟨400, "No uploadable files found (hidden/metadata files were skipped)"⟩) ↔
        ((filesUnder d1 root).filter (fun e => !is_hidden_or_metadata_path e.1)).length = 0) ∧
      ((∀ f ∈ files, ∃ rel, Storage._safe_relpath f.filename = .ok rel ∧
          is_hidden_or_metadata_path rel = true) → d1.files = d.files) := by
  intro d pid dn files d1 root hsave
  constructor
  · rw [upload_eq_of_save_ok hsave]
    split
    · rename_i hz
      simp only [hz, iff_true]
    · rename_i hz
      simp only [hz, iff_false]
      intro hbad
      cases hbad
  · intro hall
    obtain ⟨hroot, hloop⟩ := save_files_ok_destruct hsave
    subst hroot
    rw [saveLoop_all_hidden _ _ _ hall] at hloop
    have : ({ d with dirs := mkdirParents d.dirs (Storage.BASE_PATH ++ [pid, dn]) } : Disk) = d1 := by
      exact congrArg Prod.fst hloop
    rw [← this]

/-- C3 counterexample: on a root already holding a non-hidden file from an
earlier upload, submitting only a hidden file does not fail and registers a
record, although zero submitted files were uploadable. -/
theorem upload_zero_uploadable_counterexample :
    is_hidden_or_metadata_path [".DS_Store"] = true ∧
    (Upload.upload priorDisk "p" "n" [⟨".DS_Store", 9⟩]).2 =
      .ok ⟨"p", "n", ["data", "raw", "p", "n"], 1, 7⟩ := by decide

/-- Witness for the amended C3 theorem: on a fresh disk, an upload of one
hidden file raises the distinct error. -/
theorem upload_zero_uploadable_error_witness :
    ((Upload.upload ⟨[], []⟩ "p" "n" [⟨".DS_Store", 9⟩]).2 =
        .error ⟨400, "No uploadable files found (hidden/metadata files were skipped)"⟩) ∧
    (Upload.upload ⟨[], []⟩ "p" "n" [⟨".DS_Store", 9⟩]).1.files = ([] : List (List String × Nat)) := by
  have h := upload_zero_uploadable_error ⟨[], []⟩ "p" "n" [⟨".DS_Store", 9⟩]
    { dirs := mkdirParents [] (Storage.BASE_PATH ++ ["p", "n"]), files := [] }
    (Storage.BASE_PATH ++ ["p", "n"]) (by decide)
  exact ⟨h.1.mpr (by decide), by decide⟩

/-- C8: the manifest the upload route registers is computed by re-walking
the destination root on the final disk: the recorded count and total size
are those of all non-hidden files under the root after the writes, and any
non-hidden file left there by an earlier upload that this upload does not
overwrite is included in that walk. -/
theorem upload_manifest_rewalk :
    ∀ (d : Disk) (pid dn : String) (files : List Storage.UploadFile)
      (d1 : Disk) (root : List String) (rec : DatasetRecord),
      Storage.save_files d pid dn files = (d1, .ok root) →
      (Upload.upload d pid dn files).2 = .ok rec →
      rec.path = root ∧
      rec.file_count =
        ((filesUnder d1 root).filter (fun e => !is_hidden_or_metadata_path e.1)).length ∧
      rec.total_size_bytes =
        (((filesUnder d1 root).filter
          (fun e => !is_hidden_or_metadata_path e.1)).map (fun e => e.2)).sum ∧
      (∀ (p : List String) (sz : Nat),
        (p, sz) ∈ d.files →
        isStrictAncestor root p = true →
        is_hidden_or_metadata_path (p.drop root.length) = false →
        (∀ f ∈ files, ∀ rel, Storage._safe_relpath f.filename = .ok rel → root ++ rel ≠ p) →
        (p.drop root.length, sz) ∈
          (filesUnder d1 root).filter (fun e => !is_hidden_or_metadata_path e.1)) := by
  intro d pid dn files d1 root rec hsave hok
  rw [upload_eq_of_save_ok hsave] at hok
  split at hok
  · simp at hok
  · simp only [Except.ok.injEq] at hok
    subst hok
    refine ⟨rfl, rfl, rfl, ?_⟩
    intro p sz hmem hanc hnh hnw
    obtain ⟨hroot, hloop⟩ := save_files_ok_destruct hsave
    subst hroot
    have hin : (p, sz) ∈ d1.files := by
      have hd1 := congrArg Prod.fst hloop
      dsimp only at hd1
      rw [← hd1]
      exact saveLoop_preserves _ files _ p sz hmem hnw
    refine List.mem_filter.mpr ⟨?_, by simpa using hnh⟩
    unfold filesUnder
    exact List.mem_map.mpr ⟨(p, sz), List.mem_filter.mpr ⟨hin, by simpa using hanc⟩, rfl⟩

/-- Witness for the manifest theorem: uploading one new file next to a
prior one yields a manifest counting both. -/
theorem upload_manifest_rewalk_witness :
    (⟨"p", "n", ["data", "raw", "p", "n"], 2, 10⟩ : DatasetRecord).file_count =
      ((filesUnder (Upload.upload priorDisk "p" "n" [⟨"new.txt", 3⟩]).1
        ["data", "raw", "p", "n"]).filter
          (fun e => !is_hidden_or_metadata_path e.1)).length ∧
    (["data", "raw", "p", "n", "old.txt"].drop 4, 7) ∈
      (filesUnder (Upload.upload priorDisk "p" "n" [⟨"new.txt", 3⟩]).1
        ["data", "raw", "p", "n"]).filter (fun e => !is_hidden_or_metadata_path e.1) := by
  have h := upload_manifest_rewalk priorDisk "p" "n" [⟨"new.txt", 3⟩]
    (Upload.upload priorDisk "p" "n" [⟨"new.txt", 3⟩]).1 ["data", "raw", "p", "n"]
    ⟨"p", "n", ["data", "raw", "p", "n"], 2, 10⟩ (by decide) (by decide)
  refine ⟨h.2.1, h.2.2.2 ["data", "raw", "p", "n", "old.txt"] 7 (by decide) (by decide)
    (by decide) ?_⟩
  intro f hf rel hrel
  have hfv : f = ⟨"new.txt", 3⟩ := by simpa using hf
  subst hfv
  have hne : Storage._safe_relpath "new.txt" = .ok ["new.txt"] := by decide
  rw [hne] at hrel
  injection hrel with hr
  subst hr
  decide

/-- C10: ingestion is not atomic on the zero-uploadable-files error: the
storage root directory is created with parents before any file is
examined, so an upload of only hidden files into a root with no non-hidden
content is rejected with the distinct error while the root directory has
been created, no file was written and no dataset record is produced. -/
theorem ingest_root_created_on_empty_error :
    ∀ (d : Disk) (pid dn : String) (files : List Storage.UploadFile),
      Storage._safe_segment pid "partner_id" = .ok pid →
      Storage._safe_segment dn "dataset_name" = .ok dn →
      (∀ f ∈ files, ∃ rel, Storage._safe_relpath f.filename = .ok rel ∧
        is_hidden_or_metadata_path rel = true) →
      ((filesUnder d (Storage.BASE_PATH ++ [pid, dn])).filter
        (fun e => !is_hidden_or_metadata_path e.1)).length = 0 →
      (Upload.upload d pid dn files).2 =
        .error ⟨400, "No uploadable files found (hidden/metadata files were skipped)"⟩ ∧
      Storage.BASE_PATH ++ [pid, dn] ∈ (Upload.upload d pid dn files).1.dirs ∧
      (Upload.upload d pid dn files).1.files = d.files := by
  intro d pid dn files hp hd hall hempty
  have hsave := save_files_all_hidden (d := d) hp hd hall
  have hup := upload_eq_of_save_ok hsave
  rw [hup]
  split
  · exact ⟨rfl, mkdirParents_self _ _, rfl⟩
  · rename_i hnz
    exact absurd hempty hnz

/-- Witness for the non-atomicity theorem: a hidden-only upload on a fresh
disk errors while the root directory exists on disk afterwards. -/
theorem ingest_root_created_on_empty_error_witness :
    (Upload.upload ⟨[], []⟩ "pw" "nw" [⟨"sub/.DS_Store", 4⟩]).2 =
      .error ⟨400, "No uploadable files found (hidden/metadata files were skipped)"⟩ ∧
    Storage.BASE_PATH ++ ["pw", "nw"] ∈ (Upload.upload ⟨[], []⟩ "pw" "nw" [⟨"sub/.DS_Store", 4⟩]).1.dirs ∧
    (Upload.upload ⟨[], []⟩ "pw" "nw" [⟨"sub/.DS_Store", 4⟩]).1.files = (⟨[], []⟩ : Disk).files := by
  have h := ingest_root_created_on_empty_error ⟨[], []⟩ "pw" "nw" [⟨"sub/.DS_Store", 4⟩]
    (by decide) (by decide)
    (by
      intro f hf
      have hfv : f = ⟨"sub/.DS_Store", 4⟩ := by simpa using hf
      subst hfv
      exact ⟨["sub", ".DS_Store"], by decide, by decide⟩)
    (by decide)
  exact h

/-- Helper: the parquet loop previews exactly the files the decoder
accepts, in order. -/
theorem parquetLoop_previews (decode : List String → Except String Browse.ParquetPayload) :
    ∀ files, ((Browse.parquetLoop decode files).1).map (fun p => p.path) =
      files.filter (fun f => (decode f).isOk) := by
  intro files
  induction files with
  | nil => rfl
  | cons f rest ih =>
    unfold Browse.parquetLoop
    rcases hd : decode f with e | pay <;>
      simp [hd, ih, Except.isOk, Except.toBool]

/-- Helper: the parquet loop records an error for exactly the files the
decoder rejects, in order. -/
theorem parquetLoop_errors (decode : List String → Except String Browse.ParquetPayload) :
    ∀ files, ((Browse.parquetLoop decode files).2).map (fun e => e.path) =
      files.filter (fun f => !(decode f).isOk) := by
  intro files
  induction files with
  | nil => rfl
  | cons f rest ih =>
    unfold Browse.parquetLoop
    rcases hd : decode f with e | pay <;>
      simp [hd, ih, Except.isOk, Except.toBool]

/-- Helper: every error the parquet loop records carries the parquet tag. -/
theorem parquetLoop_errors_type (decode : List String → Except String Browse.ParquetPayload) :
    ∀ files, ∀ e ∈ (Browse.parquetLoop decode files).2, e.type = "parquet" := by
  intro files
  induction files with
  | nil => intro e he; cases he
  | cons f rest ih =>
    intro e he
    unfold Browse.parquetLoop at he
    rcases hd : decode f with err | pay <;> rw [hd] at he
    · rcases (by simpa using he : e = ⟨"parquet", f, err⟩ ∨ e ∈ (Browse.parquetLoop decode rest).2) with h | h
      · rw [h]
      · exact ih e h
    · exact ih e (by simpa using he)

/-- Helper: the lengths of the previews and errors of the parquet loop sum
to the number of input files. -/
theorem parquetLoop_length (decode : List String → Except String Browse.ParquetPayload) :
    ∀ files, (Browse.parquetLoop decode files).1.length +
      (Browse.parquetLoop decode files).2.length = files.length := by
  intro files
  induction files with
  | nil => rfl
  | cons f rest ih =>
    unfold Browse.parquetLoop
    rcases hd : decode f with e | pay <;> simp [hd] <;> omega

/-- Helper: the image loop previews exactly the files that open cleanly. -/
theorem imageLoop_previews (openImg : List String → Except String (Nat × Nat)) :
    ∀ files, ((Browse.imageLoop openImg files).1).map (fun p => p.path) =
      files.filter (fun f => (openImg f).isOk) := by
  intro files
  induction files with
  | nil => rfl
  | cons f rest ih =>
    unfold Browse.imageLoop
    rcases hd : openImg f with e | wh <;>
      simp [hd, ih, Except.isOk, Except.toBool]

/-- Helper: the image loop records an error for exactly the files that fail
to open. -/
theorem imageLoop_errors (openImg : List String → Except String (Nat × Nat)) :
    ∀ files, ((Browse.imageLoop openImg files).2).map (fun e => e.path) =
      files.filter (fun f => !(openImg f).isOk) := by
  intro files
  induction files with
  | nil => rfl
  | cons f rest ih =>
    unfold Browse.imageLoop
    rcases hd : openImg f with e | wh <;>
      simp [hd, ih, Except.isOk, Except.toBool]

/-- Helper: every error the image loop records carries the image tag. -/
theorem imageLoop_errors_type (openImg : List String → Except String (Nat × Nat)) :
    ∀ files, ∀ e ∈ (Browse.imageLoop openImg files).2, e.type = "image" := by
  intro files
  induction files with
  | nil => intro e he; cases he
  | cons f rest ih =>
    intro e he
    unfold Browse.imageLoop at he
    rcases hd : openImg f with err | wh <;> rw [hd] at he
    · rcases (by simpa using he : e = ⟨"image", f, err⟩ ∨ e ∈ (Browse.imageLoop openImg rest).2) with h | h
      · rw [h]
      · exact ih e h
    · exact ih e (by simpa using he)

/-- Helper: the lengths of the previews and errors of the image loop sum to
the number of input files. -/
theorem imageLoop_length (openImg : List String → Except String (Nat × Nat)) :
    ∀ files, (Browse.imageLoop openImg files).1.length +
      (Browse.imageLoop openImg files).2.length = files.length := by
  intro files
  induction files with
  | nil => rfl
  | cons f rest ih =>
    unfold Browse.imageLoop
    rcases hd : openImg f with e | wh <;> simp [hd] <;> omega

/-- C6: for every dataset, each located tabular or image input file yields
exactly one entry in the preview response: a success payload when the
isolated decode succeeds and a recorded per-file error otherwise (crash,
exception and timeout are all surfaced as the oracle failing), so counts
always add up and one corrupt file never aborts the batch; in particular a
dataset with one corrupt and one valid parquet file yields one error entry
and one successful preview. -/
theorem preview_per_file_isolation :
    (∀ (root_entries : List (String × FSTree))
        (decode : List String → Except String Browse.ParquetPayload)
        (openImg : List String → Except String (Nat × Nat)) (r : Browse.PreviewResult),
      Browse.preview_dataset root_entries decode openImg true = .ok r →
      r.parquet_previews.map (fun p => p.path) =
        ((Browse.parquetFilesOf root_entries).map (fun e => e.path)).filter
          (fun f => (decode f).isOk) ∧
      (r.errors.filter (fun e => e.type = "parquet")).map (fun e => e.path) =
        ((Browse.parquetFilesOf root_entries).map (fun e => e.path)).filter
          (fun f => !(decode f).isOk) ∧
      r.image_previews.map (fun p => p.path) =
        ((Browse.imageFilesOf root_entries).map (fun e => e.path)).filter
          (fun f => (openImg f).isOk) ∧
      (r.errors.filter (fun e => e.type = "image")).map (fun e => e.path) =
        ((Browse.imageFilesOf root_entries).map (fun e => e.path)).filter
          (fun f => !(openImg f).isOk) ∧
      r.parquet_previews.length + (r.errors.filter (fun e => e.type = "parquet")).length =
        (Browse.parquetFilesOf root_entries).length ∧
      r.image_previews.length + (r.errors.filter (fun e => e.type = "image")).length =
        (Browse.imageFilesOf root_entries).length) ∧
    Browse.preview_dataset [("bad.parquet", .file 1), ("good.parquet", .file 1)]
        mixDecode okOpen true =
      .ok ⟨2, [⟨["good.parquet"], 2, ["a", "b"]⟩], 0, [], [⟨"parquet", ["bad.parquet"], "decode crashed"⟩]⟩ := by
  constructor
  · intro root_entries decode openImg r hok
    unfold Browse.preview_dataset at hok
    dsimp only at hok
    rcases hpq : Browse.parquetLoop decode ((Browse.parquetFilesOf root_entries).map (fun e => e.path)) with ⟨pps, pes⟩
    rcases him : Browse.imageLoop openImg ((Browse.imageFilesOf root_entries).map (fun e => e.path)) with ⟨ips, ies⟩
    rw [hpq, him] at hok
    simp only [Bool.true_eq_false, if_false, Except.ok.injEq] at hok
    subst hok
    have hpestype : ∀ e ∈ pes, e.type = "parquet" := by
      intro e he
      exact parquetLoop_errors_type decode _ e (by rw [hpq]; exact he)
    have hiestype : ∀ e ∈ ies, e.type = "image" := by
      intro e he
      exact imageLoop_errors_type openImg _ e (by rw [him]; exact he)
    have hfp : (pes ++ ies).filter (fun e => e.type = "parquet") = pes := by
      rw [List.filter_append]
      rw [List.filter_eq_self.mpr (fun e he => by simp [hpestype e he])]
      rw [List.filter_eq_nil_iff.mpr (fun e he => by simp [hiestype e he]), List.append_nil]
    have hfi : (pes ++ ies).filter (fun e => e.type = "image") = ies := by
      rw [List.filter_append]
      rw [List.filter_eq_nil_iff.mpr (fun e he => by simp [hpestype e he])]
      rw [List.filter_eq_self.mpr (fun e he => by simp [hiestype e he]), List.nil_append]
    refine ⟨?_, ?_, ?_, ?_, ?_, ?_⟩
    · have := parquetLoop_previews decode ((Browse.parquetFilesOf root_entries).map (fun e => e.path))
      rw [hpq] at this
      exact this
    · rw [hfp]
      have := parquetLoop_errors decode ((Browse.parquetFilesOf root_entries).map (fun e => e.path))
      rw [hpq] at this
      exact this
    · have := imageLoop_previews openImg ((Browse.imageFilesOf root_entries).map (fun e => e.path))
      rw [him] at this
      exact this
    · rw [hfi]
      have := imageLoop_errors openImg ((Browse.imageFilesOf root_entries).map (fun e => e.path))
      rw [him] at this
      exact this
    · rw [hfp]
      have := parquetLoop_length decode ((Browse.parquetFilesOf root_entries).map (fun e => e.path))
      rw [hpq] at this
      simpa using this
    · rw [hfi]
      have := imageLoop_length openImg ((Browse.imageFilesOf root_entries).map (fun e => e.path))
      rw [him] at this
      simpa using this
  · decide

/-- Witness for the isolation theorem: on the corrupt-plus-valid dataset
the preview and error counts add up to the number of located parquet
files. -/
theorem preview_per_file_isolation_witness :
    (⟨2, [⟨["good.parquet"], 2, ["a", "b"]⟩], 0, [],
        [⟨"parquet", ["bad.parquet"], "decode crashed"⟩]⟩ : Browse.PreviewResult).parquet_previews.length +
      ((⟨2, [⟨["good.parquet"], 2, ["a", "b"]⟩], 0, [],
        [⟨"parquet", ["bad.parquet"], "decode crashed"⟩]⟩ : Browse.PreviewResult).errors.filter
          (fun e => e.type = "parquet")).length =
      (Browse.parquetFilesOf [("bad.parquet", .file 1), ("good.parquet", .file 1)]).length := by
  exact (preview_per_file_isolation.1 [("bad.parquet", .file 1), ("good.parquet", .file 1)]
    mixDecode okOpen _ (by decide)).2.2.2.2.1

/-- Helper: the thumbnail size computation never exceeds the box and never
exceeds the source dimensions. -/
theorem Image_thumbnail_le (w h mx : Nat) (hw : 1 ≤ w) (hh : 1 ≤ h) (hmx : 1 ≤ mx) :
    (Image_thumbnail w h mx).1 ≤ mx ∧ (Image_thumbnail w h mx).2 ≤ mx ∧
    (Image_thumbnail w h mx).1 ≤ w ∧ (Image_thumbnail w h mx).2 ≤ h := by
  unfold Image_thumbnail
  split
  · rename_i hfit
    exact ⟨hfit.1, hfit.2, le_refl w, le_refl h⟩
  · rename_i hnofit
    split
    · rename_i hhw
      have hhmx : mx < h := by
        rcases Nat.lt_or_ge mx h with hc | hc
        · exact hc
        · exact absurd ⟨le_trans hhw hc, hc⟩ hnofit
      have h0 : 0 < h := hh
      have hfl_mx : mx * w / h ≤ mx := by
        have h1 : mx * w ≤ mx * h := Nat.mul_le_mul_left mx hhw
        calc mx * w / h ≤ mx * h / h := Nat.div_le_div_right h1
          _ = mx := Nat.mul_div_cancel mx h0
      have hfl_w : mx * w / h ≤ w := by
        have h1 : mx * w ≤ h * w := Nat.mul_le_mul_right w (le_of_lt hhmx)
        calc mx * w / h ≤ h * w / h := Nat.div_le_div_right h1
          _ = w := Nat.mul_div_cancel_left w h0
      have hce_mx : (2 * mx * w - h + 2 * h - 1) / (2 * h) ≤ mx := by
        have h2 : 0 < 2 * h := by omega
        have h3 : mx * w ≤ mx * h := Nat.mul_le_mul_left mx hhw
        have h4 : 2 * mx * w - h + 2 * h - 1 < (mx + 1) * (2 * h) := by
          have e1 : (mx + 1) * (2 * h) = 2 * (mx * h) + 2 * h := by ring
          have e2 : 2 * mx * w = 2 * (mx * w) := by ring
          omega
        have h5 := (Nat.div_lt_iff_lt_mul h2).mpr h4
        omega
      have hce_w : (2 * mx * w - h + 2 * h - 1) / (2 * h) ≤ w := by
        have h2 : 0 < 2 * h := by omega
        have h3 : (mx + 1) * w ≤ h * w := Nat.mul_le_mul_right w (by omega)
        have h4 : 2 * mx * w - h + 2 * h - 1 < (w + 1) * (2 * h) := by
          have e1 : (w + 1) * (2 * h) = 2 * (h * w) + 2 * h := by ring
          have e2 : 2 * mx * w = 2 * (mx * w) := by ring
          have e3 : (mx + 1) * w = mx * w + w := by ring
          omega
        have h5 := (Nat.div_lt_iff_lt_mul h2).mpr h4
        omega
      refine ⟨?_, le_refl mx, ?_, le_of_lt hhmx⟩
      · dsimp only
        refine max_le ?_ hmx
        repeat' split
        all_goals first | exact Nat.zero_le _ | assumption
      · dsimp only
        refine max_le ?_ hw
        repeat' split
        all_goals first | exact Nat.zero_le _ | assumption
    · rename_i hwh
      have hwmx : mx < w := by
        rcases Nat.lt_or_ge mx w with hc | hc
        · exact hc
        · exact absurd ⟨hc, le_trans (by omega) hc⟩ hnofit
      have h0 : 0 < w := hw
      have hfl_mx : mx * h / w ≤ mx := by
        have h1 : mx * h ≤ mx * w := Nat.mul_le_mul_left mx (by omega)
        calc mx * h / w ≤ mx * w / w := Nat.div_le_div_right h1
          _ = mx := Nat.mul_div_cancel mx h0
      have hfl_h : mx * h / w ≤ h := by
        have h1 : mx * h ≤ w * h := Nat.mul_le_mul_right h (le_of_lt hwmx)
        calc mx * h / w ≤ w * h / w := Nat.div_le_div_right h1
          _ = h := Nat.mul_div_cancel_left h h0
      have hce_mx : (2 * mx * h - w + 2 * w - 1) / (2 * w) ≤ mx := by
        have h2 : 0 < 2 * w := by omega
        have h3 : mx * h ≤ mx * w := Nat.mul_le_mul_left mx (by omega)
        have h4 : 2 * mx * h - w + 2 * w - 1 < (mx + 1) * (2 * w) := by
          have e1 : (mx + 1) * (2 * w) = 2 * (mx * w) + 2 * w := by ring
          have e2 : 2 * mx * h = 2 * (mx * h) := by ring
          omega
        have h5 := (Nat.div_lt_iff_lt_mul h2).mpr h4
        omega
      have hce_h : (2 * mx * h - w + 2 * w - 1) / (2 * w) ≤ h := by
        have h2 : 0 < 2 * w := by omega
        have h3 : (mx + 1) * h ≤ w * h := Nat.mul_le_mul_right h (by omega)
        have h4 : 2 * mx * h - w + 2 * w - 1 < (h + 1) * (2 * w) := by
          have e1 : (h + 1) * (2 * w) = 2 * (w * h) + 2 * w := by ring
          have e2 : 2 * mx * h = 2 * (mx * h) := by ring
          have e3 : (mx + 1) * h = mx * h + h := by ring
          omega
        have h5 := (Nat.div_lt_iff_lt_mul h2).mpr h4
        omega
      refine ⟨le_refl mx, ?_, le_of_lt hwmx, ?_⟩
      · dsimp only
        refine max_le ?_ hmx
        repeat' split
        all_goals first | exact Nat.zero_le _ | assumption
      · dsimp only
        refine max_le ?_ hh
        repeat' split
        all_goals first | exact Nat.zero_le _ | assumption

/-- C9: the thumbnail route output never exceeds the bounding dimension
(256 in the route) in either direction and never upscales the source; a
source with an alpha channel or a transparent palette entry is saved
lossless as PNG with its mode kept, and any other source is saved lossy as
JPEG at quality 85 after conversion into RGB or L. -/
theorem thumbnail_bounded_and_encoding :
    ∀ (img : PILImage) (maxDim : Nat),
      1 ≤ img.width → 1 ≤ img.height → 1 ≤ maxDim →
      ((Browse.thumbnail_render img maxDim).width ≤ maxDim ∧
        (Browse.thumbnail_render img maxDim).height ≤ maxDim ∧
        (Browse.thumbnail_render img maxDim).width ≤ img.width ∧
        (Browse.thumbnail_render img maxDim).height ≤ img.height) ∧
      (Browse.has_alpha img = true →
        (Browse.thumbnail_render img maxDim).media_type = "image/png" ∧
        (Browse.thumbnail_render img maxDim).quality = none ∧
        (Browse.thumbnail_render img maxDim).mode = img.mode) ∧
      (Browse.has_alpha img = false →
        (Browse.thumbnail_render img maxDim).media_type = "image/jpeg" ∧
        (Browse.thumbnail_render img maxDim).quality = some 85 ∧
        ((Browse.thumbnail_render img maxDim).mode = .RGB ∨
          (Browse.thumbnail_render img maxDim).mode = .L)) ∧
      Browse.thumbnail img = Browse.thumbnail_render img 256 := by
  intro img maxDim hw hh hmx
  have hb := Image_thumbnail_le img.width img.height maxDim hw hh hmx
  constructor
  · unfold Browse.thumbnail_render
    rcases ht : Image_thumbnail img.width img.height maxDim with ⟨tw, th⟩
    rw [ht] at hb
    cases hha : Browse.has_alpha img <;> simp [hha] <;> exact ⟨hb.1, hb.2.1, hb.2.2.1, hb.2.2.2⟩
  · refine ⟨?_, ?_, rfl⟩
    · intro hha
      unfold Browse.thumbnail_render
      rcases ht : Image_thumbnail img.width img.height maxDim with ⟨tw, th⟩
      simp [hha]
    · intro hha
      unfold Browse.thumbnail_render
      rcases ht : Image_thumbnail img.width img.height maxDim with ⟨tw, th⟩
      simp only [hha, Bool.false_eq_true, if_false]
      refine ⟨by trivial, by trivial, ?_⟩
      split
      · rename_i hm
        rcases hm with hm | hm
        · exact Or.inl hm
        · exact Or.inr hm
      · exact Or.inl rfl

/-- Witness for the thumbnail theorem: an opaque 512 by 100 RGB source at
the route box 256 stays within 256, is not upscaled, and is saved as JPEG
at quality 85. -/
theorem thumbnail_bounded_and_encoding_witness :
    ((Browse.thumbnail_render ⟨512, 100, .RGB, false⟩ 256).width ≤ 256 ∧
      (Browse.thumbnail_render ⟨512, 100, .RGB, false⟩ 256).height ≤ 256 ∧
      (Browse.thumbnail_render ⟨512, 100, .RGB, false⟩ 256).width ≤ 512 ∧
      (Browse.thumbnail_render ⟨512, 100, .RGB, false⟩ 256).height ≤ 100) ∧
    (Browse.thumbnail_render ⟨512, 100, .RGB, false⟩ 256).media_type = "image/jpeg" ∧
    (Browse.thumbnail_render ⟨512, 100, .RGB, false⟩ 256).quality = some 85 := by
  have h := thumbnail_bounded_and_encoding ⟨512, 100, .RGB, false⟩ 256
    (by decide) (by decide) (by decide)
  exact ⟨h.1, (h.2.2.1 (by decide)).1, (h.2.2.1 (by decide)).2.1⟩

/-- Helper: characters with the same code point are equal. -/
theorem char_eq_of_toNat_eq {a b : Char} (h : a.toNat = b.toNat) : a = b :=
  Char.eq_of_val_eq (UInt32.ext h)

/-- Helper: one-step unfolding of the code-point order on nonempty lists. -/
theorem charsLt_cons_iff (a b : Char) (xs ys : List Char) :
    charsLt (a :: xs) (b :: ys) = true ↔
      (a.toNat < b.toNat ∨ (a.toNat = b.toNat ∧ charsLt xs ys = true)) := by
  simp only [charsLt]
  split_ifs with h1 h2
  · simp [h1]
  · simp [h1, h2]
  · simp [h1, h2]

/-- Helper: the code-point order is transitive. -/
theorem charsLt_trans : ∀ (x y z : List Char),
    charsLt x y = true → charsLt y z = true → charsLt x z = true := by
  intro x
  induction x with
  | nil =>
    intro y z hxy hyz
    cases y with
    | nil => simp [charsLt] at hxy
    | cons b ys =>
      cases z with
      | nil => simp [charsLt] at hyz
      | cons c zs => rfl
  | cons a xs ih =>
    intro y z hxy hyz
    cases y with
    | nil => simp [charsLt] at hxy
    | cons b ys =>
      cases z with
      | nil => simp [charsLt] at hyz
      | cons c zs =>
        rw [charsLt_cons_iff] at hxy hyz ⊢
        rcases hxy with h1 | ⟨h1, h1'⟩ <;> rcases hyz with h2 | ⟨h2, h2'⟩
        · exact Or.inl (by omega)
        · exact Or.inl (by omega)
        · exact Or.inl (by omega)
        · exact Or.inr ⟨by omega, ih ys zs h1' h2'⟩

/-- Helper: any two character lists are comparable in the code-point
order. -/
theorem charsLt_connex : ∀ (x y : List Char),
    charsLt x y = true ∨ x = y ∨ charsLt y x = true := by
  intro x
  induction x with
  | nil =>
    intro y
    cases y with
    | nil => exact Or.inr (Or.inl rfl)
    | cons b ys => exact Or.inl rfl
  | cons a xs ih =>
    intro y
    cases y with
    | nil => exact Or.inr (Or.inr rfl)
    | cons b ys =>
      rcases Nat.lt_trichotomy a.toNat b.toNat with h | h | h
      · exact Or.inl ((charsLt_cons_iff a b xs ys).mpr (Or.inl h))
      · rcases ih ys with h' | h' | h'
        · exact Or.inl ((charsLt_cons_iff a b xs ys).mpr (Or.inr ⟨h, h'⟩))
        · exact Or.inr (Or.inl (by rw [char_eq_of_toNat_eq h, h']))
        · exact Or.inr (Or.inr ((charsLt_cons_iff b a ys xs).mpr (Or.inr ⟨h.symm, h'⟩)))
      · exact Or.inr (Or.inr ((charsLt_cons_iff b a ys xs).mpr (Or.inl h)))

/-- Helper: the non-strict string order is total. -/
theorem strLe_total (a b : String) : strLe a b = true ∨ strLe b a = true := by
  rcases charsLt_connex a.data b.data with h | h | h
  · exact Or.inl (by simp [strLe, strLt, h])
  · have hab : a = b := by
      cases a; cases b
      cases h
      rfl
    exact Or.inl (by simp [strLe, hab])
  · exact Or.inr (by simp [strLe, strLt, h])

/-- Helper: the non-strict string order is transitive. -/
theorem strLe_trans {a b c : String} (h1 : strLe a b = true) (h2 : strLe b c = true) :
    strLe a c = true := by
  simp only [strLe, Bool.or_eq_true, decide_eq_true_eq] at h1 h2 ⊢
  rcases h1 with h1 | rfl
  · rcases h2 with h2 | rfl
    · exact Or.inl (charsLt_trans a.data b.data c.data h1 h2)
    · exact Or.inl h1
  · exact h2

/-- Helper: the child key order is total. -/
theorem keyLe_total (x y : Bool × String) :
    Browse.keyLe x y = true ∨ Browse.keyLe y x = true := by
  rcases x with ⟨b1, s1⟩
  rcases y with ⟨b2, s2⟩
  cases b1 <;> cases b2 <;> simp [Browse.keyLe] <;> exact strLe_total s1 s2

/-- Helper: the child key order is transitive. -/
theorem keyLe_trans {x y z : Bool × String}
    (h1 : Browse.keyLe x y = true) (h2 : Browse.keyLe y z = true) :
    Browse.keyLe x z = true := by
  rcases x with ⟨b1, s1⟩
  rcases y with ⟨b2, s2⟩
  rcases z with ⟨b3, s3⟩
  cases b1 <;> cases b2 <;> cases b3 <;>
    simp [Browse.keyLe] at h1 h2 ⊢ <;>
    exact strLe_trans h1 h2

instance : IsTotal (String × FSTree) Browse.childRel :=
  ⟨fun a b => keyLe_total (Browse.childKey a) (Browse.childKey b)⟩

instance : IsTrans (String × FSTree) Browse.childRel :=
  ⟨fun _ _ _ h1 h2 => keyLe_trans h1 h2⟩

/-- Helper: a built directory node keeps its name and path, whatever else
happens. -/
theorem build_dir_node_shape (m r : Nat) (es : List (String × FSTree)) (nm : String)
    (rp : List String) (st : Browse.TreeState) :
    ∃ cs, (Browse._build_dir_node m r es nm rp st).1 = .dir nm rp cs := by
  cases r with
  | zero => exact ⟨[], rfl⟩
  | succ r =>
    unfold Browse._build_dir_node
    split
    · exact ⟨[], rfl⟩
    · rcases hcl : Browse.childLoop m (Browse._build_dir_node m r)
          (Browse.sortChildren es) rp st with ⟨cs, st1⟩
      exact ⟨cs, rfl⟩

/-- Helper: one step of the child loop, with the pair matches spelled as
projections. -/
theorem childLoop_cons (m : Nat)
    (hd : List (String × FSTree) → String → List String → Browse.TreeState →
      Browse.TreeNode × Browse.TreeState)
    (nm : String) (t : FSTree) (rest : List (String × FSTree))
    (relpath : List String) (st : Browse.TreeState) :
    Browse.childLoop m hd ((nm, t) :: rest) relpath st =
      (if is_hidden_or_metadata_path (relpath ++ [nm]) = true then
        Browse.childLoop m hd rest relpath st
      else if st.entries_seen ≥ m then ([], { st with truncated := true })
      else
        match t with
        | .dir es =>
          ((hd es nm (relpath ++ [nm]) { st with entries_seen := st.entries_seen + 1 }).1 ::
            (Browse.childLoop m hd rest relpath
              (hd es nm (relpath ++ [nm]) { st with entries_seen := st.entries_seen + 1 }).2).1,
            (Browse.childLoop m hd rest relpath
              (hd es nm (relpath ++ [nm]) { st with entries_seen := st.entries_seen + 1 }).2).2)
        | .file sz =>
          ((.file nm (relpath ++ [nm]) sz : Browse.TreeNode) ::
            (Browse.childLoop m hd rest relpath { st with entries_seen := st.entries_seen + 1 }).1,
            (Browse.childLoop m hd rest relpath { st with entries_seen := st.entries_seen + 1 }).2)) := by
  cases t <;> rfl

/-- Helper: the keys of the emitted children form a sublist of the keys of
the processed entry list, in order. -/
theorem childLoop_keys_sublist (m r : Nat) :
    ∀ (l : List (String × FSTree)) (relpath : List String) (st : Browse.TreeState),
      ((Browse.childLoop m (Browse._build_dir_node m r) l relpath st).1.map Browse.nodeKey).Sublist
        (l.map Browse.childKey) := by
  intro l
  induction l with
  | nil =>
    intro relpath st
    simp [Browse.childLoop]
  | cons e rest ih =>
    intro relpath st
    rcases e with ⟨nm, t⟩
    rw [childLoop_cons]
    by_cases hh : is_hidden_or_metadata_path (relpath ++ [nm]) = true
    · rw [if_pos hh]
      exact (ih relpath st).cons _
    · rw [if_neg hh]
      by_cases hcap : st.entries_seen ≥ m
      · rw [if_pos hcap]
        simp
      · rw [if_neg hcap]
        cases t with
        | dir es =>
          dsimp only [List.map]
          have hkey : Browse.nodeKey (Browse._build_dir_node m r es nm (relpath ++ [nm])
              { st with entries_seen := st.entries_seen + 1 }).1 =
              Browse.childKey (nm, FSTree.dir es) := by
            obtain ⟨cs, hcs⟩ := build_dir_node_shape m r es nm (relpath ++ [nm])
              { st with entries_seen := st.entries_seen + 1 }
            rw [hcs]
            rfl
          rw [hkey]
          exact List.Sublist.cons₂ _ (ih relpath _)
        | file sz =>
          dsimp only [List.map]
          exact List.Sublist.cons₂ _ (ih relpath _)

/-- Helper: a key comparison between emitted nodes means directories first
and otherwise case-insensitive name order. -/
theorem keyLe_nodeOrd {a b : Browse.TreeNode}
    (h : Browse.keyLe (Browse.nodeKey a) (Browse.nodeKey b) = true) :
    Browse.nodeOrd a b := by
  unfold Browse.nodeOrd
  unfold Browse.nodeKey at h
  rcases hda : Browse.nodeIsDir a <;> rcases hdb : Browse.nodeIsDir b <;>
    rw [hda, hdb] at h <;> simp [Browse.keyLe] at h <;> simp [hda, hdb, h]

/-- C7: the children of every directory node the tree walker emits are
ordered with all sub-directories before all files and case-insensitively
by name within each group; on the example entries b.txt, A_dir (a
directory) and a.txt the emitted order is A_dir, a.txt, b.txt. -/
theorem treewalker_child_order :
    (∀ (m r : Nat) (es : List (String × FSTree)) (nm : String)
        (rp : List String) (st : Browse.TreeState),
      ((Browse._build_dir_node m r es nm rp st).1.childrenOf).Pairwise Browse.nodeOrd) ∧
    ((Browse.dataset_tree exampleEntries).tree.childrenOf).map Browse.nodeName =
      ["A_dir", "a.txt", "b.txt"] := by
  constructor
  · intro m r es nm rp st
    cases r with
    | zero => exact List.Pairwise.nil
    | succ r =>
      unfold Browse._build_dir_node
      split
      · exact List.Pairwise.nil
      · rcases hcl : Browse.childLoop m (Browse._build_dir_node m r)
            (Browse.sortChildren es) rp st with ⟨cs, st1⟩
        dsimp only [Browse.TreeNode.childrenOf]
        have hsorted : (Browse.sortChildren es).Pairwise Browse.childRel :=
          List.sorted_insertionSort Browse.childRel es
        have hkeys : ((Browse.sortChildren es).map Browse.childKey).Pairwise
            (fun x y => Browse.keyLe x y = true) := by
          rw [List.pairwise_map]
          exact hsorted
        have hsub := childLoop_keys_sublist m r (Browse.sortChildren es) rp st
        rw [hcl] at hsub
        have hcs : (cs.map Browse.nodeKey).Pairwise (fun x y => Browse.keyLe x y = true) :=
          List.Pairwise.sublist hsub hkeys
        rw [List.pairwise_map] at hcs
        exact hcs.imp keyLe_nodeOrd
  · decide

/-- Helper: a node contributes its own count plus that of its children. -/
theorem node_size_eq (n : Browse.TreeNode) :
    n.size = 1 + Browse.forestSize n.childrenOf := by
  cases n <;> rfl

/-- Helper: the entry counter of the child loop advances by exactly the
number of nodes emitted, for any directory handler with the same
property. -/
theorem childLoop_counter (m : Nat)
    (hd : List (String × FSTree) → String → List String → Browse.TreeState →
      Browse.TreeNode × Browse.TreeState)
    (hQ : ∀ es nm rp st, ((hd es nm rp st).2).entries_seen =
      st.entries_seen + Browse.forestSize ((hd es nm rp st).1).childrenOf) :
    ∀ (l : List (String × FSTree)) (relpath : List String) (st : Browse.TreeState),
      ((Browse.childLoop m hd l relpath st).2).entries_seen =
        st.entries_seen + Browse.forestSize (Browse.childLoop m hd l relpath st).1 := by
  intro l
  induction l with
  | nil =>
    intro relpath st
    simp [Browse.childLoop, Browse.forestSize]
  | cons e rest ih =>
    intro relpath st
    rcases e with ⟨nm, t⟩
    rw [childLoop_cons]
    by_cases hh : is_hidden_or_metadata_path (relpath ++ [nm]) = true
    · rw [if_pos hh]
      exact ih relpath st
    · rw [if_neg hh]
      by_cases hcap : st.entries_seen ≥ m
      · rw [if_pos hcap]
        simp [Browse.forestSize]
      · rw [if_neg hcap]
        cases t with
        | dir es =>
          have h1 := hQ es nm (relpath ++ [nm]) { st with entries_seen := st.entries_seen + 1 }
          have h2 := ih relpath
            (hd es nm (relpath ++ [nm]) { st with entries_seen := st.entries_seen + 1 }).2
          have h3 := node_size_eq
            (hd es nm (relpath ++ [nm]) { st with entries_seen := st.entries_seen + 1 }).1
          simp only [Browse.forestSize]
          dsimp only at h1 h2 ⊢
          omega
        | file sz =>
          have h2 := ih relpath { st with entries_seen := st.entries_seen + 1 }
          simp only [Browse.forestSize, Browse.TreeNode.size]
          dsimp only at h2 ⊢
          omega

/-- Helper: the entry counter of a built directory node advances by exactly
the number of nodes in its emitted children forest. -/
theorem build_dir_node_counter (m : Nat) :
    ∀ (r : Nat) (es : List (String × FSTree)) (nm : String) (rp : List String)
      (st : Browse.TreeState),
      ((Browse._build_dir_node m r es nm rp st).2).entries_seen =
        st.entries_seen +
          Browse.forestSize ((Browse._build_dir_node m r es nm rp st).1).childrenOf := by
  intro r
  induction r with
  | zero =>
    intro es nm rp st
    simp [Browse._build_dir_node, Browse.TreeNode.childrenOf, Browse.forestSize]
  | succ r ih =>
    intro es nm rp st
    unfold Browse._build_dir_node
    split
    · simp [Browse.TreeNode.childrenOf, Browse.forestSize]
    · rcases hcl : Browse.childLoop m (Browse._build_dir_node m r)
          (Browse.sortChildren es) rp st with ⟨cs, st1⟩
      dsimp only [Browse.TreeNode.childrenOf]
      have := childLoop_counter m (Browse._build_dir_node m r) ih (Browse.sortChildren es) rp st
      rw [hcl] at this
      exact this

/-- Helper: over a flat list of visible files, the child loop counts one
entry per file until the cap, then halts marking truncation. -/
theorem childLoop_flat (m : Nat)
    (hd : List (String × FSTree) → String → List String → Browse.TreeState →
      Browse.TreeNode × Browse.TreeState) :
    ∀ (l : List (String × FSTree)) (k : Nat),
      (∀ e ∈ l, e.2.isDir = false ∧ is_hidden_or_metadata_path [e.1] = false) →
      k ≤ m →
      (Browse.childLoop m hd l [] ⟨false, k⟩).2 =
        if k + l.length ≤ m then ⟨false, k + l.length⟩ else ⟨true, m⟩ := by
  intro l
  induction l with
  | nil =>
    intro k hflat hk
    have h0 : (Browse.childLoop m hd [] [] ⟨false, k⟩).2 = (⟨false, k⟩ : Browse.TreeState) := rfl
    rw [h0, List.length_nil, Nat.add_zero, if_pos hk]
  | cons e rest ih =>
    intro k hflat hk
    rcases e with ⟨nm, t⟩
    have hfe := hflat (nm, t) (by simp)
    rw [childLoop_cons]
    rw [if_neg (show ¬(is_hidden_or_metadata_path ([] ++ [nm]) = true) by
      simp only [List.nil_append]
      simp [hfe.2])]
    dsimp only
    by_cases hcap : k ≥ m
    · rw [if_pos hcap]
      rw [if_neg (show ¬(k + ((nm, t) :: rest).length ≤ m) by
        simp only [List.length_cons]; omega)]
      have hkm : k = m := by omega
      rw [hkm]
    · rw [if_neg hcap]
      cases t with
      | dir es =>
        exact absurd hfe.1 (by simp [FSTree.isDir])
      | file sz =>
        dsimp only
        rw [ih (k + 1) (fun e he => hflat e (by simp [he])) (by omega)]
        by_cases hc : k + 1 + rest.length ≤ m
        · rw [if_pos hc]
          rw [if_pos (show k + ((nm, FSTree.file sz) :: rest).length ≤ m by
            simp only [List.length_cons]; omega)]
          have h2 : k + 1 + rest.length = k + ((nm, FSTree.file sz) :: rest).length := by
            simp only [List.length_cons]; omega
          rw [h2]
        · rw [if_neg hc]
          rw [if_neg (show ¬(k + ((nm, FSTree.file sz) :: rest).length ≤ m) by
            simp only [List.length_cons]; omega)]

/-- Helper: a flat directory of visible files beyond the cap makes the
walker halt with the counter exactly at the cap and truncation set. -/
theorem build_dir_node_flat (m r : Nat) (l : List (String × FSTree))
    (hflat : ∀ e ∈ l, e.2.isDir = false ∧ is_hidden_or_metadata_path [e.1] = false)
    (hlen : m < l.length) (hr : 1 ≤ r) :
    (Browse._build_dir_node m r l "" [] ⟨false, 0⟩).2 = ⟨true, m⟩ := by
  cases r with
  | zero => omega
  | succ r =>
    unfold Browse._build_dir_node
    rw [if_neg (show ¬((⟨false, 0⟩ : Browse.TreeState).truncated = true) by decide)]
    rcases hcl : Browse.childLoop m (Browse._build_dir_node m r)
        (Browse.sortChildren l) [] ⟨false, 0⟩ with ⟨cs, st1⟩
    dsimp only
    have hperm := List.perm_insertionSort Browse.childRel l
    have hflat2 : ∀ e ∈ Browse.sortChildren l,
        e.2.isDir = false ∧ is_hidden_or_metadata_path [e.1] = false := by
      intro e he
      exact hflat e (hperm.mem_iff.mp he)
    have hlen2 : (Browse.sortChildren l).length = l.length := hperm.length_eq
    have := childLoop_flat m (Browse._build_dir_node m r) (Browse.sortChildren l) 0
      hflat2 (Nat.zero_le m)
    rw [hcl] at this
    dsimp only at this
    rw [this, if_neg (by omega)]

/-- C5: the tree walker counts every emitted entry, files and directories
alike, excluding the implicit root, against the entry cap: the counter
always advances by exactly the number of emitted nodes; on a flat
directory of more visible files than the cap the walk halts at the cap
with truncated set; and the dataset_tree route (cap 2000, depth 5)
accordingly reports truncated with entries_returned 2000 on any directory
of more than 2000 visible files. -/
theorem treewalker_entry_cap :
    (∀ (m r : Nat) (es : List (String × FSTree)) (nm : String) (rp : List String)
        (st : Browse.TreeState),
      ((Browse._build_dir_node m r es nm rp st).2).entries_seen =
        st.entries_seen +
          Browse.forestSize ((Browse._build_dir_node m r es nm rp st).1).childrenOf) ∧
    (∀ (m r : Nat) (l : List (String × FSTree)),
      (∀ e ∈ l, e.2.isDir = false ∧ is_hidden_or_metadata_path [e.1] = false) →
      m < l.length → 1 ≤ r →
      (Browse._build_dir_node m r l "" [] ⟨false, 0⟩).2 = ⟨true, m⟩) ∧
    (∀ (l : List (String × FSTree)),
      (∀ e ∈ l, e.2.isDir = false ∧ is_hidden_or_metadata_path [e.1] = false) →
      2000 < l.length →
      (Browse.dataset_tree l).truncated = true ∧
        (Browse.dataset_tree l).entries_returned = 2000) := by
  refine ⟨build_dir_node_counter, build_dir_node_flat, ?_⟩
  intro l hflat hlen
  unfold Browse.dataset_tree
  dsimp only
  rcases hb : Browse._build_dir_node 2000 5 l "" [] ⟨false, 0⟩ with ⟨tree, st⟩
  have := build_dir_node_flat 2000 5 l hflat hlen (by omega)
  rw [hb] at this
  dsimp only at this
  subst this
  exact ⟨rfl, rfl⟩

/-- Witness for the entry cap theorem: a flat directory of three visible
files with cap two halts truncated at two. -/
theorem treewalker_entry_cap_witness :
    (Browse._build_dir_node 2 5 flat3 "" [] ⟨false, 0⟩).2 = ⟨true, 2⟩ :=
  treewalker_entry_cap.2.1 2 5 flat3 (by decide) (by decide) (by decide)

/-- Helper: every path inside the forest emitted by the child loop passed
the hidden check, for any directory handler producing checked subtrees. -/
theorem childLoop_paths (m : Nat)
    (hd : List (String × FSTree) → String → List String → Browse.TreeState →
      Browse.TreeNode × Browse.TreeState)
    (hshape : ∀ es nm rp st, ∃ cs, (hd es nm rp st).1 = .dir nm rp cs)
    (hQ : ∀ es nm rp st p, p ∈ Browse.forestPaths ((hd es nm rp st).1).childrenOf →
      is_hidden_or_metadata_path p = false) :
    ∀ (l : List (String × FSTree)) (relpath : List String) (st : Browse.TreeState)
      (p : List String),
      p ∈ Browse.forestPaths (Browse.childLoop m hd l relpath st).1 →
      is_hidden_or_metadata_path p = false := by
  intro l
  induction l with
  | nil =>
    intro relpath st p hp
    simp [Browse.childLoop, Browse.forestPaths] at hp
  | cons e rest ih =>
    intro relpath st p hp
    rcases e with ⟨nm, t⟩
    rw [childLoop_cons] at hp
    by_cases hh : is_hidden_or_metadata_path (relpath ++ [nm]) = true
    · rw [if_pos hh] at hp
      exact ih relpath st p hp
    · rw [if_neg hh] at hp
      have hhfalse : is_hidden_or_metadata_path (relpath ++ [nm]) = false := by
        cases hcond : is_hidden_or_metadata_path (relpath ++ [nm])
        · rfl
        · exact absurd hcond hh
      by_cases hcap : st.entries_seen ≥ m
      · rw [if_pos hcap] at hp
        simp [Browse.forestPaths] at hp
      · rw [if_neg hcap] at hp
        cases t with
        | dir es =>
          dsimp only at hp
          simp only [Browse.forestPaths] at hp
          rcases List.mem_append.mp hp with hp | hp
          · obtain ⟨cs, hcs⟩ := hshape es nm (relpath ++ [nm])
              { st with entries_seen := st.entries_seen + 1 }
            rw [hcs] at hp
            simp only [Browse.nodePaths] at hp
            rcases List.mem_cons.mp hp with hp | hp
            · rw [hp]
              exact hhfalse
            · refine hQ es nm (relpath ++ [nm])
                { st with entries_seen := st.entries_seen + 1 } p ?_
              rw [hcs]
              exact hp
          · exact ih relpath _ p hp
        | file sz =>
          dsimp only at hp
          simp only [Browse.forestPaths, Browse.nodePaths] at hp
          rcases List.mem_append.mp hp with hp | hp
          · have hpv : p = relpath ++ [nm] := by simpa using hp
            rw [hpv]
            exact hhfalse
          · exact ih relpath _ p hp

/-- Helper: every path inside the forest emitted below a built directory
node passed the hidden check. -/
theorem build_dir_node_paths (m : Nat) :
    ∀ (r : Nat) (es : List (String × FSTree)) (nm : String) (rp : List String)
      (st : Browse.TreeState) (p : List String),
      p ∈ Browse.forestPaths ((Browse._build_dir_node m r es nm rp st).1).childrenOf →
      is_hidden_or_metadata_path p = false := by
  intro r
  induction r with
  | zero =>
    intro es nm rp st p hp
    simp [Browse._build_dir_node, Browse.TreeNode.childrenOf, Browse.forestPaths] at hp
  | succ r ih =>
    intro es nm rp st p hp
    unfold Browse._build_dir_node at hp
    split at hp
    · simp [Browse.TreeNode.childrenOf, Browse.forestPaths] at hp
    · rcases hcl : Browse.childLoop m (Browse._build_dir_node m r)
          (Browse.sortChildren es) rp st with ⟨cs, st1⟩
      rw [hcl] at hp
      dsimp only [Browse.TreeNode.childrenOf] at hp
      have := childLoop_paths m (Browse._build_dir_node m r) (build_dir_node_shape m r) ih
        (Browse.sortChildren es) rp st p
      rw [hcl] at this
      exact this hp

/-- Helper: the write loop only adds files at non-hidden relative paths
under the root. -/
theorem saveLoop_writes_nonhidden (root : List String) :
    ∀ (files : List Storage.UploadFile) (d : Disk) (p : List String) (sz : Nat),
      (p, sz) ∈ (Storage.saveLoop root files d).1.files →
      (p, sz) ∈ d.files ∨
        ∃ rel, is_hidden_or_metadata_path rel = false ∧ p = root ++ rel := by
  intro files
  induction files with
  | nil =>
    intro d p sz h
    exact Or.inl h
  | cons f rest ih =>
    intro d p sz h
    unfold Storage.saveLoop at h
    rcases hok : Storage._safe_relpath f.filename with e | rel <;> rw [hok] at h
    · exact Or.inl h
    · dsimp only at h
      split at h
      · exact ih d p sz h
      · rename_i hnhid
        rcases ih _ p sz h with hmem | hnew
        · simp only [writeFile] at hmem
          rcases List.mem_append.mp hmem with hm | hm
          · exact Or.inl (List.mem_filter.mp hm).1
          · simp only [List.mem_singleton, Prod.mk.injEq] at hm
            refine Or.inr ⟨rel, ?_, hm.1⟩
            cases hcond : is_hidden_or_metadata_path rel
            · rfl
            · exact absurd hcond (by simpa using hnhid)
        · exact Or.inr hnew

/-- C2 (amended): the hidden-file predicate is enforced at ingestion (only
non-hidden relative paths are ever written), at manifest computation (the
counted walk filters hidden entries), at tree traversal (every emitted
node path passed the hidden check, at the route as everywhere), and in the
thumbnail random-selection candidates; but the preview scans apply no such
filter, and a hidden parquet file under the root is located by the
tabular scan. -/
theorem hidden_filter_uniform_exclusion :
    (∀ (m r : Nat) (es : List (String × FSTree)) (nm : String) (rp : List String)
        (st : Browse.TreeState) (p : List String),
      p ∈ Browse.forestPaths ((Browse._build_dir_node m r es nm rp st).1).childrenOf →
      is_hidden_or_metadata_path p = false) ∧
    (∀ (l : List (String × FSTree)) (p : List String),
      p ∈ Browse.forestPaths ((Browse.dataset_tree l).tree.childrenOf) →
      is_hidden_or_metadata_path p = false) ∧
    (∀ (root : List String) (files : List Storage.UploadFile) (d : Disk)
        (p : List String) (sz : Nat),
      (p, sz) ∈ (Storage.saveLoop root files d).1.files →
      (p, sz) ∈ d.files ∨
        ∃ rel, is_hidden_or_metadata_path rel = false ∧ p = root ++ rel) ∧
    (∀ (d : Disk) (root : List String) (e : List String × Nat),
      e ∈ (filesUnder d root).filter (fun e => !is_hidden_or_metadata_path e.1) →
      is_hidden_or_metadata_path e.1 = false) ∧
    (∀ (l : List (String × FSTree)) (e : FSEntry),
      e ∈ Browse.thumbnailCandidates l →
      is_hidden_or_metadata_path e.path = false) ∧
    ((Browse.parquetFilesOf hiddenFs).map (fun e => e.path) =
        [["._x.parquet"], ["ok.parquet"]] ∧
      is_hidden_or_metadata_path ["._x.parquet"] = true) := by
  refine ⟨build_dir_node_paths, ?_, saveLoop_writes_nonhidden, ?_, ?_, by decide⟩
  · intro l p hp
    unfold Browse.dataset_tree at hp
    dsimp only at hp
    rcases hb : Browse._build_dir_node 2000 5 l "" [] ⟨false, 0⟩ with ⟨tree, st⟩
    rw [hb] at hp
    dsimp only at hp
    have := build_dir_node_paths 2000 5 l "" [] ⟨false, 0⟩ p
    rw [hb] at this
    exact this hp
  · intro d root e he
    have := (List.mem_filter.mp he).2
    simpa using this
  · intro l e he
    have := (List.mem_filter.mp he).2
    simp only [Bool.and_eq_true, Bool.not_eq_true'] at this
    exact this.2

/-- C2 counterexample: a hidden parquet file under the dataset root appears
in the tabular preview output, although it is hidden per the predicate. -/
theorem hidden_preview_counterexample :
    is_hidden_or_metadata_path ["._x.parquet"] = true ∧
    (Browse.preview_dataset hiddenFs okDecode okOpen true).map
      (fun r => r.parquet_previews.map (fun p => p.path)) =
      .ok [["._x.parquet"], ["ok.parquet"]] := by decide

/-- Witness for the hidden-exclusion theorem: the only thumbnail candidate
of the fixture dataset has a non-hidden path. -/
theorem hidden_filter_uniform_exclusion_witness :
    is_hidden_or_metadata_path (⟨["img.png"], true, 2⟩ : FSEntry).path = false :=
  hidden_filter_uniform_exclusion.2.2.2.2.1 hiddenFs ⟨["img.png"], true, 2⟩ (by decide)
